import Mathlib

/-!
Verification of the trajectory engine of the mc-raptor trajectory tool:
the deterministic Lissajous model, the stochastic Langevin model, the
trajectory registry, and the per-timestep statistics aggregator.
JavaScript numbers are idealized as exact rationals wherever the code
manipulates them algebraically, lifted to the reals for transcendental
operations (sin, cos, sqrt, pi).
-/

/-- Tolerance used by the float GCD helper; every call site in the source
uses the default value 1e-9, written out here as the exact rational. -/
def gcdTol : ℚ := 1 / 1000000000

theorem gcdTol_pos : 0 < gcdTol := by norm_num [gcdTol]

/-- Truncation toward zero, the rounding used by the JavaScript remainder
operator on numbers. -/
def jsTrunc (x : ℚ) : ℤ := if 0 ≤ x then ⌊x⌋ else ⌈x⌉

/-- JavaScript remainder a % b (truncated division, sign of the dividend). -/
def jsRem (a b : ℚ) : ℚ := a - b * jsTrunc (a / b)

/-- A rational whose denominator divides n becomes an integer when
multiplied by n. -/
theorem mul_natCast_int_of_den_dvd (q : ℚ) (n : ℕ) (h : q.den ∣ n) :
    ∃ z : ℤ, q * (n : ℚ) = (z : ℚ) := by
  obtain ⟨k, hk⟩ := h
  refine ⟨q.num * k, ?_⟩
  subst hk
  push_cast
  rw [← mul_assoc]
  congr 1
  nth_rewrite 1 [← Rat.num_div_den q]
  rw [div_mul_cancel₀]
  exact_mod_cast q.den_ne_zero

/-- Conversely, if q * n is an integer for positive n, the denominator of q
divides n. -/
theorem den_dvd_of_mul_natCast_int (q : ℚ) (n : ℕ) (hn : 0 < n) (z : ℤ)
    (h : q * (n : ℚ) = (z : ℚ)) : q.den ∣ n := by
  have hn0 : ((n : ℤ) : ℚ) ≠ 0 := by
    push_cast
    exact_mod_cast hn.ne'
  have hq : q = (z : ℚ) / ((n : ℤ) : ℚ) := by
    rw [eq_div_iff hn0]
    exact_mod_cast h
  have hdvd := Rat.den_dvd z (n : ℤ)
  rw [Rat.divInt_eq_div] at hdvd
  rw [← hq] at hdvd
  exact_mod_cast hdvd

/-- Denominator divisibility is preserved by the JavaScript remainder. -/
theorem jsRem_den_dvd (a b : ℚ) (n : ℕ) (hn : 0 < n)
    (ha : a.den ∣ n) (hb : b.den ∣ n) : (jsRem a b).den ∣ n := by
  obtain ⟨za, hza⟩ := mul_natCast_int_of_den_dvd a n ha
  obtain ⟨zb, hzb⟩ := mul_natCast_int_of_den_dvd b n hb
  apply den_dvd_of_mul_natCast_int _ n hn (za - zb * jsTrunc (a / b))
  unfold jsRem
  push_cast
  linear_combination hza - (jsTrunc (a / b) : ℚ) * hzb

/-- Absolute value of the JavaScript remainder is below a positive divisor. -/
theorem abs_jsRem_lt (a b : ℚ) (hb : 0 < b) : |jsRem a b| < b := by
  have hbne : b ≠ 0 := hb.ne'
  unfold jsRem jsTrunc
  split_ifs with h
  · set q : ℚ := ((⌊a / b⌋ : ℤ) : ℚ) with hq
    have hle : q ≤ a / b := Int.floor_le _
    have hlt : a / b < q + 1 := Int.lt_floor_add_one _
    have h1 : b * q ≤ a := by
      have := mul_le_mul_of_nonneg_left hle hb.le
      rwa [mul_div_cancel₀ a hbne] at this
    have h2 : a < b * q + b := by
      have := mul_lt_mul_of_pos_left hlt hb
      rw [mul_div_cancel₀ a hbne] at this
      linarith [this]
    rw [abs_of_nonneg (by linarith)]
    linarith
  · set q : ℚ := ((⌈a / b⌉ : ℤ) : ℚ) with hq
    have hle : a / b ≤ q := Int.le_ceil _
    have hlt : q < a / b + 1 := Int.ceil_lt_add_one _
    have h1 : a ≤ b * q := by
      have := mul_le_mul_of_nonneg_left hle hb.le
      rwa [mul_div_cancel₀ a hbne] at this
    have h2 : b * q < a + b := by
      have := mul_lt_mul_of_pos_left hlt hb
      rw [mul_add, mul_one, mul_div_cancel₀ a hbne] at this
      linarith [this]
    rw [abs_of_nonpos (by linarith)]
    linarith

/-- Termination measure for the Euclidean loop on rationals with a common
denominator bound. -/
theorem jsRem_measure_lt (a b : ℚ) (n : ℕ) (hn : 0 < n)
    (ha : a.den ∣ n) (hb : b.den ∣ n) (hbpos : 0 < b) :
    ((jsRem a b) * (n : ℚ)).num.natAbs < (b * (n : ℚ)).num.natAbs := by
  obtain ⟨zr, hzr⟩ :=
    mul_natCast_int_of_den_dvd (jsRem a b) n (jsRem_den_dvd a b n hn ha hb)
  obtain ⟨zb, hzb⟩ := mul_natCast_int_of_den_dvd b n hb
  have hnq : (0 : ℚ) < (n : ℚ) := by exact_mod_cast hn
  have h1 : |zr| < zb := by
    have hq : |(zr : ℚ)| < (zb : ℚ) := by
      rw [← hzr, ← hzb, abs_mul, abs_of_nonneg hnq.le]
      exact mul_lt_mul_of_pos_right (abs_jsRem_lt a b hbpos) hnq
    exact_mod_cast hq
  have hzb0 : 0 ≤ zb := le_trans (abs_nonneg zr) h1.le
  rw [hzr, hzb]
  simp only [Rat.num_intCast]
  rw [Int.abs_eq_natAbs] at h1
  have h2 : (zb.natAbs : ℤ) = zb := Int.natAbs_of_nonneg hzb0
  omega

/-- Euclidean while-loop of the source gcd helper: while (b > tol) swap and
take the remainder, then return a. The denominator bound n makes the loop
terminate on rationals. -/
def gcdLoop (n : ℕ) (a b : ℚ) (ha : a.den ∣ n) (hb : b.den ∣ n)
    (hn : 0 < n) : ℚ :=
  if h : gcdTol < b then
    gcdLoop n b (jsRem a b) hb (jsRem_den_dvd a b n hn ha hb) hn
  else a
termination_by (b * (n : ℚ)).num.natAbs
decreasing_by
  exact jsRem_measure_lt a b n hn ha hb (lt_trans gcdTol_pos h)

/-- Greatest common divisor for floats with tolerance, from the source
helper gcd(a, b, tol = 1e-9). -/
def gcdFloat (a0 b0 : ℚ) : ℚ :=
  let a := |a0|
  let b := |b0|
  if a < gcdTol then b
  else if b < gcdTol then a
  else gcdLoop (a.den.lcm b.den) a b (Nat.dvd_lcm_left _ _)
    (Nat.dvd_lcm_right _ _) (Nat.lcm_pos a.den_pos b.den_pos)

/-- GCD of a list of numbers, from the source helper gcdMultiple:
nums.reduce((acc, n) => gcd(acc, n), 0). -/
def gcdMultiple (nums : List ℚ) : ℚ := nums.foldl gcdFloat 0

/-- Parameter set: a mapping from parameter name to a number, as in the
source where params is a plain JS object of numeric fields. -/
abbrev Params := String → ℚ

/-- Active frequency list collected by calculateCycleDuration: a frequency
is pushed when its amplitude and the frequency itself are positive, in the
order a, b, c. -/
def lissajousActiveFreqs (p : Params) : List ℚ :=
  (if 0 < p "A" ∧ 0 < p "a" then [p "a"] else []) ++
  (if 0 < p "B" ∧ 0 < p "b" then [p "b"] else []) ++
  (if 0 < p "C" ∧ 0 < p "c" then [p "c"] else [])

/-- Duration of one complete cycle of the Lissajous curve, from the source
function calculateCycleDuration. -/
def calculateCycleDuration (p : Params) : ℚ :=
  let activeFreqs := lissajousActiveFreqs p
  if activeFreqs = [] then p "duration"
  else
    let freqGcd := gcdMultiple activeFreqs
    if freqGcd < gcdTol then p "duration"
    else p "duration" * (1 / freqGcd)

/-- Plot horizon of the Lissajous model, from lissajous.getPlotTime. -/
def lissajousGetPlotTime (p : Params) : ℚ :=
  if ¬ (0 < p "duration") then 0
  else max 0 (p "ramp_duration") + calculateCycleDuration p

/-- Euclidean norm of a 3-vector, as computed by Math.hypot(x, y, z). -/
noncomputable def hypot3 (x y z : ℝ) : ℝ := Real.sqrt (x ^ 2 + y ^ 2 + z ^ 2)

/-- Kinematic state returned by the deterministic evaluate: position,
velocity, speed, acceleration and their magnitudes. -/
structure KinState where
  x : ℝ
  y : ℝ
  z : ℝ
  vx : ℝ
  vy : ℝ
  vz : ℝ
  speed : ℝ
  ax : ℝ
  ay : ℝ
  az : ℝ
  accel : ℝ

/-- Closed-form evaluation of the Lissajous model, translated from
lissajous.evaluate in the source. -/
noncomputable def lissajousEvaluate (time : ℝ) (p : Params) : KinState :=
  let rd : ℝ := p "ramp_duration"
  let dur : ℝ := p "duration"
  let A : ℝ := p "A"
  let B : ℝ := p "B"
  let C : ℝ := p "C"
  let a : ℝ := p "a"
  let b : ℝ := p "b"
  let c : ℝ := p "c"
  let time_velocity : ℝ := if 0 < rd then min time rd / rd else 1
  let ramp_time := time_velocity * min time rd / 2
  let progress := (ramp_time + max 0 (time - rd)) * (2 * Real.pi) / dur
  let d_progress := 2 * Real.pi * time_velocity / dur
  let dd_progress := if 0 < rd ∧ time < rd then 2 * Real.pi / (rd * dur) else 0
  let x := A * Real.sin (a * progress)
  let y := B * Real.sin (b * progress)
  let z := C * Real.sin (c * progress)
  let vx := A * Real.cos (a * progress) * a * d_progress
  let vy := B * Real.cos (b * progress) * b * d_progress
  let vz := C * Real.cos (c * progress) * c * d_progress
  let speed := hypot3 vx vy vz
  let ax := A * a *
    (-a * Real.sin (a * progress) * d_progress * d_progress +
      Real.cos (a * progress) * dd_progress)
  let ay := B * b *
    (-b * Real.sin (b * progress) * d_progress * d_progress +
      Real.cos (b * progress) * dd_progress)
  let az := C * c *
    (-c * Real.sin (c * progress) * d_progress * d_progress +
      Real.cos (c * progress) * dd_progress)
  let accel := hypot3 ax ay az
  ⟨x, y, z, vx, vy, vz, speed, ax, ay, az, accel⟩

/-- Closed form of the deterministic evaluate as worded by the
specification claim: position amplitude*sin(frequency*progress), velocity
amplitude*cos(frequency*progress)*frequency*d_progress, acceleration
amplitude*frequency*(-frequency*sin(frequency*progress)*d_progress^2 +
cos(frequency*progress)*dd_progress), with speed and accel the Euclidean
norms of the 3-axis vectors. -/
noncomputable def lissajousEvaluateSpec (time : ℝ) (p : Params) : KinState :=
  let rd : ℝ := p "ramp_duration"
  let dur : ℝ := p "duration"
  let A : ℝ := p "A"
  let B : ℝ := p "B"
  let C : ℝ := p "C"
  let a : ℝ := p "a"
  let b : ℝ := p "b"
  let c : ℝ := p "c"
  let time_velocity : ℝ := if 0 < rd then min time rd / rd else 1
  let ramp_time := time_velocity * min time rd / 2
  let progress := (ramp_time + max 0 (time - rd)) * (2 * Real.pi) / dur
  let d_progress := 2 * Real.pi * time_velocity / dur
  let dd_progress := if 0 < rd ∧ time < rd then 2 * Real.pi / (rd * dur) else 0
  let x := A * Real.sin (a * progress)
  let y := B * Real.sin (b * progress)
  let z := C * Real.sin (c * progress)
  let vx := A * Real.cos (a * progress) * a * d_progress
  let vy := B * Real.cos (b * progress) * b * d_progress
  let vz := C * Real.cos (c * progress) * c * d_progress
  let speed := hypot3 vx vy vz
  let ax := A * a *
    (-a * Real.sin (a * progress) * d_progress ^ 2 +
      Real.cos (a * progress) * dd_progress)
  let ay := B * b *
    (-b * Real.sin (b * progress) * d_progress ^ 2 +
      Real.cos (b * progress) * dd_progress)
  let az := C * c *
    (-c * Real.sin (c * progress) * d_progress ^ 2 +
      Real.cos (c * progress) * dd_progress)
  let accel := hypot3 ax ay az
  ⟨x, y, z, vx, vy, vz, speed, ax, ay, az, accel⟩

/-- Sample of a trajectory at one time instant, the record pushed by the
simulate loops: the time t spread together with the kinematic state. -/
structure Sample where
  t : ℝ
  x : ℝ
  y : ℝ
  z : ℝ
  vx : ℝ
  vy : ℝ
  vz : ℝ
  speed : ℝ
  ax : ℝ
  ay : ℝ
  az : ℝ
  accel : ℝ

/-- Build a sample from a time and a kinematic state, the JS object spread
in lissajous.simulate. -/
def Sample.ofState (t : ℝ) (k : KinState) : Sample :=
  ⟨t, k.x, k.y, k.z, k.vx, k.vy, k.vz, k.speed, k.ax, k.ay, k.az, k.accel⟩

@[simp] theorem Sample.ofState_t (t : ℝ) (k : KinState) :
    (Sample.ofState t k).t = t := rfl

/-- Step count of the simulate loops: Math.max(1, Math.floor(plotTime / dt)). -/
def numSteps (plotTime dt : ℚ) : ℕ := max 1 (⌊plotTime / dt⌋.toNat)

/-- One deterministic trajectory: evaluate at each of steps+1 clamped
times t = min(i*dt, plotTime), the body of the loop in lissajous.simulate. -/
noncomputable def lissajousTraj (p : Params) (dt plotTime : ℚ) (steps : ℕ) :
    List Sample :=
  (List.range (steps + 1)).map (fun i : ℕ =>
    Sample.ofState ((min ((i : ℚ) * dt) plotTime : ℚ) : ℝ)
      (lissajousEvaluate ((min ((i : ℚ) * dt) plotTime : ℚ) : ℝ) p))

/-- Deterministic simulate, from lissajous.simulate: evaluate at each of
steps+1 clamped times, replicated nSamples times. -/
noncomputable def lissajousSimulate (p : Params) (dt : ℚ) (nSamples : ℕ) :
    List (List Sample) :=
  let plotTime := lissajousGetPlotTime p
  if plotTime ≤ 0 then []
  else
    let steps := numSteps plotTime dt
    (List.range nSamples).map (fun _ => lissajousTraj p dt plotTime steps)

/-- Singularity check of the deterministic model, from
lissajous.hasSingularity. -/
noncomputable def lissajousHasSingularity (p : Params) : Prop :=
  if 0 < p "ramp_duration" then False
  else
    let d_progress : ℝ := 2 * Real.pi / (p "duration" : ℚ)
    let v0x : ℝ := (p "A" : ℚ) * (p "a" : ℚ) * d_progress
    let v0y : ℝ := (p "B" : ℚ) * (p "b" : ℚ) * d_progress
    let v0z : ℝ := (p "C" : ℚ) * (p "c" : ℚ) * d_progress
    1e-9 < hypot3 v0x v0y v0z

/-- Plot horizon of the Langevin model, from langevin.getPlotTime. -/
def langevinGetPlotTime (p : Params) : ℚ :=
  if 0 < p "duration" then p "duration" else 0

/-- Per-axis state of the Langevin integrator: raw and smoothed
position/velocity pairs. -/
structure DimState where
  pos_raw : ℝ
  vel_raw : ℝ
  pos : ℝ
  vel : ℝ

/-- One Euler-Maruyama step of one axis, from the inner loop of
langevin.simulate: raw damped-oscillator update plus noise, then
exponential smoothing of the output velocity and position. -/
noncomputable def langevinStepDim (gamma omega2 sigma alpha dt sqrt_dt draw : ℝ)
    (s : DimState) : DimState :=
  let dW := sqrt_dt * draw
  let v_next := s.vel_raw + (-gamma * s.vel_raw - omega2 * s.pos_raw) * dt + sigma * dW
  let x_next := s.pos_raw + v_next * dt
  let v_smooth := alpha * v_next + (1 - alpha) * s.vel
  let x_smooth := s.pos + v_smooth * dt
  ⟨x_next, v_next, x_smooth, v_smooth⟩

/-- State of all three axes after i integration steps; the ambient
normal draws are passed explicitly as the stream noise. -/
noncomputable def langevinStates (p : Params) (dt : ℚ) (noise : ℕ → Fin 3 → ℝ) :
    ℕ → Fin 3 → DimState
  | 0 => fun _ => ⟨0, 0, 0, 0⟩
  | (i + 1) => fun d =>
      langevinStepDim (p "gamma") ((p "omega" : ℝ) * (p "omega" : ℚ)) (p "sigma")
        (p "alpha") (dt : ℝ) (Real.sqrt (dt : ℝ)) (noise i d)
        (langevinStates p dt noise i d)

/-- Sample pushed by the Langevin loop at step i, built from the smoothed
state after the step and the smoothed velocity before it. -/
noncomputable def langevinSample (dt plotTime : ℚ) (i : ℕ)
    (sPrev s : Fin 3 → DimState) : Sample :=
  let t : ℚ := min (i * dt) plotTime
  let vx := (s 0).vel
  let vy := (s 1).vel
  let vz := (s 2).vel
  let ax := (vx - (sPrev 0).vel) / (dt : ℝ)
  let ay := (vy - (sPrev 1).vel) / (dt : ℝ)
  let az := (vz - (sPrev 2).vel) / (dt : ℝ)
  ⟨(t : ℝ), (s 0).pos, (s 1).pos, (s 2).pos, vx, vy, vz, hypot3 vx vy vz,
    ax, ay, az, hypot3 ax ay az⟩

/-- Initial zero sample stored before the Langevin integration loop. -/
def langevinSample0 : Sample := ⟨0, 0, 0, 0, 0, 0, 0, 0, 0, 0, 0, 0⟩

/-- One stochastic trajectory: the initial zero sample followed by steps
integration steps, the body of the realization loop in langevin.simulate. -/
noncomputable def langevinTraj (p : Params) (dt plotTime : ℚ) (steps : ℕ)
    (stream : ℕ → Fin 3 → ℝ) : List Sample :=
  langevinSample0 ::
    (List.range steps).map (fun j =>
      langevinSample dt plotTime (j + 1) (langevinStates p dt stream j)
        (langevinStates p dt stream (j + 1)))

/-- Stochastic simulate, from langevin.simulate: nSamples independent
realizations, each the initial zero sample followed by steps integration
steps; the sequentially consumed normal draws are the explicit stream
noise, realization n reading the draws for its step i and axis d at
position (n*steps + i)*3 + d. -/
noncomputable def langevinSimulate (p : Params) (dt : ℚ) (nSamples : ℕ)
    (noise : ℕ → ℝ) : List (List Sample) :=
  let plotTime := langevinGetPlotTime p
  if plotTime ≤ 0 then []
  else
    let steps := numSteps plotTime dt
    (List.range nSamples).map (fun n =>
      langevinTraj p dt plotTime steps
        (fun i d => noise ((n * steps + i) * 3 + (d : ℕ))))

/-- Capability set shared by the two model variants; evaluate may fail
(a JS throw is modelled as Except.error), and the ambient random stream
consumed by a stochastic simulate is an explicit argument that the
deterministic model ignores. -/
structure Model where
  id : String
  name : String
  isStochastic : Bool
  getPlotTime : Params → ℚ
  simulate : Params → ℚ → ℕ → (ℕ → ℝ) → List (List Sample)
  hasSingularity : Params → Prop
  evaluate : ℝ → Params → Except String KinState

/-- Lissajous model instance, from the lissajous object of the source. -/
noncomputable def lissajous : Model where
  id := "lissajous"
  name := "Lissajous Curve"
  isStochastic := false
  getPlotTime := lissajousGetPlotTime
  simulate := fun p dt n _ => lissajousSimulate p dt n
  hasSingularity := lissajousHasSingularity
  evaluate := fun t p => Except.ok (lissajousEvaluate t p)

/-- Langevin model instance, from the langevin object of the source. -/
noncomputable def langevin : Model where
  id := "langevin"
  name := "Langevin Dynamics"
  isStochastic := true
  getPlotTime := langevinGetPlotTime
  simulate := langevinSimulate
  hasSingularity := fun _ => False
  evaluate := fun _ _ =>
    Except.error "Langevin dynamics requires simulation, not point evaluation"

/-- Registry object mapping the fixed identifiers to model instances. -/
noncomputable def trajectories : List (String × Model) :=
  [("lissajous", lissajous), ("langevin", langevin)]

/-- Property names that every plain JS object literal inherits from
Object.prototype; bracket access on the registry object finds these
members when no own property matches, and each of them is a function or
object, hence truthy. -/
def objectPrototypeKeys : List String :=
  ["constructor", "hasOwnProperty", "isPrototypeOf", "propertyIsEnumerable",
    "toLocaleString", "toString", "valueOf", "__proto__",
    "__defineGetter__", "__defineSetter__", "__lookupGetter__", "__lookupSetter__"]

/-- Non-null result of the registry lookup trajectories[id] || null:
either an own property of the object literal (a model instance) or a
member inherited from Object.prototype (truthy, so the || null fallback
does not fire on it). -/
inductive RegistryMember where
  | model (m : Model) : RegistryMember
  | inherited (name : String) : RegistryMember

/-- Registry lookup, from getTrajectory: trajectories[id] || null.
JS bracket access consults the prototype chain, so an id naming an
Object.prototype member yields that inherited member, and only a
genuinely absent property gives undefined, which || null turns into null
(modelled as none). -/
noncomputable def getTrajectory (id : String) : Option RegistryMember :=
  match List.lookup id trajectories with
  | some m => some (RegistryMember.model m)
  | none =>
      if id ∈ objectPrototypeKeys then some (RegistryMember.inherited id)
      else none

/-- Statistic record emitted by computeStats. Absent keys of the emitted
JS object are modelled as none: the N==1 branch emits x, y, speed and
accel but no lower/upper bands, the N>1 branch emits the bands but no
raw point fields. -/
structure StatRecord where
  t : ℝ
  x : Option ℝ
  y : Option ℝ
  speed : Option ℝ
  accel : Option ℝ
  speedMin : ℝ
  speedMax : ℝ
  speedMean : ℝ
  speedStd : ℝ
  speedLower : Option ℝ
  speedUpper : Option ℝ
  accelMin : ℝ
  accelMax : ℝ
  accelMean : ℝ
  accelStd : ℝ
  accelLower : Option ℝ
  accelUpper : Option ℝ

/-- Math.min spread over a collected list; the empty case never occurs in
computeStats because the first trajectory always has an entry at every
visited index (JS would give Infinity there). -/
def jsMin : List ℝ → ℝ
  | [] => 0
  | x :: xs => xs.foldl min x

/-- Math.max spread over a collected list, dual to jsMin. -/
def jsMax : List ℝ → ℝ
  | [] => 0
  | x :: xs => xs.foldl max x

/-- Entries present at time index i: the collect loop of computeStats
skips the trajectories with no entry at i. -/
def presentAt (trajectoryData : List (List Sample)) (i : ℕ) : List Sample :=
  trajectoryData.filterMap (fun tr => tr.get? i)

/-- Speed values collected at time index i. -/
def speedsAt (trajectoryData : List (List Sample)) (i : ℕ) : List ℝ :=
  (presentAt trajectoryData i).map Sample.speed

/-- Accel values collected at time index i. -/
def accelsAt (trajectoryData : List (List Sample)) (i : ℕ) : List ℝ :=
  (presentAt trajectoryData i).map Sample.accel

/-- Body of the N>1 loop of computeStats at time index i: collect the
entries present at i, then mean, min, max and population standard
deviation for the speed and accel series. -/
noncomputable def statRecordAt (trajectoryData : List (List Sample)) (i : ℕ) :
    StatRecord :=
  let t : ℝ :=
    match (trajectoryData.headD []).get? i with
    | some pt => pt.t
    | none => 0
  let speeds := speedsAt trajectoryData i
  let accels := accelsAt trajectoryData i
  let speedMean := speeds.foldl (· + ·) (0 : ℝ) / (speeds.length : ℝ)
  let speedMin := jsMin speeds
  let speedMax := jsMax speeds
  let speedVariance :=
    speeds.foldl (fun sum v => sum + (v - speedMean) ^ 2) (0 : ℝ) / (speeds.length : ℝ)
  let speedStd := Real.sqrt speedVariance
  let accelMean := accels.foldl (· + ·) (0 : ℝ) / (accels.length : ℝ)
  let accelMin := jsMin accels
  let accelMax := jsMax accels
  let accelVariance :=
    accels.foldl (fun sum v => sum + (v - accelMean) ^ 2) (0 : ℝ) / (accels.length : ℝ)
  let accelStd := Real.sqrt accelVariance
  { t := t
    x := none
    y := none
    speed := none
    accel := none
    speedMin := speedMin
    speedMax := speedMax
    speedMean := speedMean
    speedStd := speedStd
    speedLower := some (speedMean - speedStd)
    speedUpper := some (speedMean + speedStd)
    accelMin := accelMin
    accelMax := accelMax
    accelMean := accelMean
    accelStd := accelStd
    accelLower := some (accelMean - accelStd)
    accelUpper := some (accelMean + accelStd) }

/-- Statistics aggregator over a trajectory batch, from computeStats. -/
noncomputable def computeStats (trajectoryData : List (List Sample)) :
    List StatRecord :=
  if trajectoryData.length = 0 then []
  else if trajectoryData.length = 1 then
    (trajectoryData.headD []).map (fun point =>
      { t := point.t
        x := some point.x
        y := some point.y
        speed := some point.speed
        accel := some point.accel
        speedMin := point.speed
        speedMax := point.speed
        speedMean := point.speed
        speedStd := 0
        speedLower := none
        speedUpper := none
        accelMin := point.accel
        accelMax := point.accel
        accelMean := point.accel
        accelStd := 0
        accelLower := none
        accelUpper := none })
  else
    (List.range (trajectoryData.headD []).length).map (statRecordAt trajectoryData)

/-- Claim C7: for every time and every parameter set, calling evaluate on
the stochastic Langevin model raises an error (modelled as Except.error)
rather than returning data. -/
theorem langevin_evaluate_fails_fast (time : ℝ) (p : Params) :
    langevin.evaluate time p =
      Except.error "Langevin dynamics requires simulation, not point evaluation" ∧
    ∀ k : KinState, langevin.evaluate time p ≠ Except.ok k := by
  constructor
  · rfl
  · intro k h
    simp [langevin] at h

/-- Counterexample to claim C8 as stated: "toString" is not one of the
model identifiers, yet the lookup returns the member inherited from
Object.prototype rather than null, because JS bracket access consults the
prototype chain and the || null fallback only fires on falsy values. -/
theorem getTrajectory_claim_counterexample :
    getTrajectory "toString" = some (RegistryMember.inherited "toString") ∧
    getTrajectory "toString" ≠ none := by
  have h : getTrajectory "toString" = some (RegistryMember.inherited "toString") := rfl
  refine ⟨h, ?_⟩
  intro hnone
  rw [h] at hnone
  exact Option.noConfusion hnone

/-- Claim C8 (amended): the registry lookup never raises; it returns the
corresponding model instance for the known identifiers, the inherited
Object.prototype member (not null) for an id naming such a member, and
null (none) exactly for every other id. -/
theorem getTrajectory_contract :
    (∀ id : String, id ≠ "lissajous" → id ≠ "langevin" →
      id ∉ objectPrototypeKeys → getTrajectory id = none) ∧
    getTrajectory "lissajous" = some (RegistryMember.model lissajous) ∧
    getTrajectory "langevin" = some (RegistryMember.model langevin) ∧
    (∀ id ∈ objectPrototypeKeys,
      getTrajectory id = some (RegistryMember.inherited id)) := by
  refine ⟨?_, rfl, rfl, ?_⟩
  · intro id h1 h2 h3
    simp [getTrajectory, trajectories, List.lookup,
      beq_eq_false_iff_ne.mpr h1, beq_eq_false_iff_ne.mpr h2, h3]
  · intro id hid
    have h1 : id ≠ "lissajous" := by
      intro h
      subst h
      revert hid
      decide
    have h2 : id ≠ "langevin" := by
      intro h
      subst h
      revert hid
      decide
    simp [getTrajectory, trajectories, List.lookup,
      beq_eq_false_iff_ne.mpr h1, beq_eq_false_iff_ne.mpr h2, hid]

/-- Witness for claim C8 at the concrete identifier "speed" (neither a
model id nor an Object.prototype member) and at the inherited member name
"toString". -/
theorem getTrajectory_contract_witness :
    ("speed" : String) ≠ "lissajous" ∧ ("speed" : String) ≠ "langevin" ∧
    ("speed" : String) ∉ objectPrototypeKeys ∧ getTrajectory "speed" = none ∧
    ("toString" : String) ∈ objectPrototypeKeys ∧
    getTrajectory "toString" = some (RegistryMember.inherited "toString") :=
  ⟨by decide, by decide, by decide,
    getTrajectory_contract.1 "speed" (by decide) (by decide) (by decide),
    by decide,
    getTrajectory_contract.2.2.2 "toString" (by decide)⟩

/-- Plot horizon contract exactly as worded by claim C2: 0 when duration
is nonpositive, otherwise ramp_duration plus a cycle duration computed
from the components with non-zero amplitude and non-zero frequency,
dividing duration by their float GCD when the GCD exceeds 1e-9. -/
def lissajousGetPlotTimeClaim (p : Params) : ℚ :=
  if p "duration" ≤ 0 then 0
  else
    let activeFreqs : List ℚ :=
      (if p "A" ≠ 0 ∧ p "a" ≠ 0 then [p "a"] else []) ++
      (if p "B" ≠ 0 ∧ p "b" ≠ 0 then [p "b"] else []) ++
      (if p "C" ≠ 0 ∧ p "c" ≠ 0 then [p "c"] else [])
    let g := gcdMultiple activeFreqs
    let cycleDuration :=
      if activeFreqs.length = 0 then p "duration"
      else if gcdTol < g then p "duration" / g else p "duration"
    p "ramp_duration" + cycleDuration

/-- Plot horizon contract as amended: the active components are those with
positive amplitude and positive frequency, duration is divided by the GCD
already when the GCD is greater than or equal to 1e-9, and a negative
ramp_duration contributes max(0, ramp_duration). -/
def lissajousGetPlotTimeSpec (p : Params) : ℚ :=
  if p "duration" ≤ 0 then 0
  else
    let g := gcdMultiple (lissajousActiveFreqs p)
    let cycleDuration :=
      if (lissajousActiveFreqs p).length = 0 then p "duration"
      else if gcdTol ≤ g then p "duration" / g else p "duration"
    max 0 (p "ramp_duration") + cycleDuration

/-- Concrete parameter set refuting claim C2 as stated: a negative x
amplitude with frequency 1/2, positive duration, everything else zero. -/
def pC2 : Params := fun s =>
  if s = "A" then -1 else if s = "a" then 1/2 else if s = "duration" then 10 else 0

/-- Counterexample to claim C2 as stated: with A = -1, a = 1/2, all other
amplitudes zero, duration = 10 and ramp_duration = 0, the code treats the
x component as inactive (its amplitude is not positive) and returns 10,
while the claim counts it active (non-zero amplitude, non-zero frequency)
and demands 10 / (1/2) = 20. -/
theorem lissajousGetPlotTime_claim_counterexample :
    lissajousGetPlotTime pC2 = 10 ∧ lissajousGetPlotTimeClaim pC2 = 20 := by
  constructor
  · have hactive : lissajousActiveFreqs pC2 = [] := by
      simp [lissajousActiveFreqs, pC2]
    simp [lissajousGetPlotTime, calculateCycleDuration, hactive, pC2]
  · have hg : gcdFloat 0 (1/2 : ℚ) = 1/2 := by
      simp [gcdFloat]
      norm_num [gcdTol]
    simp [lissajousGetPlotTimeClaim, pC2, gcdMultiple]
    norm_num [hg, gcdTol]

/-- Claim C2 (amended): getPlotTime agrees with the amended plot-horizon
contract for every parameter set. -/
theorem lissajousGetPlotTime_amended (p : Params) :
    lissajousGetPlotTime p = lissajousGetPlotTimeSpec p := by
  simp only [lissajousGetPlotTime, lissajousGetPlotTimeSpec, calculateCycleDuration]
  rcases le_or_lt (p "duration") 0 with h | h
  · rw [if_pos (not_lt.mpr h), if_pos h]
  · rw [if_neg (not_not_intro h), if_neg (not_le.mpr h)]
    congr 1
    rcases eq_or_ne (lissajousActiveFreqs p) [] with he | he
    · simp [he]
    · rw [if_neg he]
      rcases lt_or_le (gcdMultiple (lissajousActiveFreqs p)) gcdTol with hg | hg
      · rw [if_pos hg, if_neg (by simpa [List.length_eq_zero] using he),
          if_neg (not_le.mpr hg)]
      · rw [if_neg (not_lt.mpr hg), if_neg (by simpa [List.length_eq_zero] using he),
          if_pos hg, mul_one_div]

/-- Concrete parameter set refuting claim C5 as stated: a negative
ramp_duration with a nonzero t=0 velocity. -/
def pC5 : Params := fun s =>
  if s = "ramp_duration" then -1
  else if s = "duration" then 1
  else if s = "A" then 1
  else if s = "a" then 1
  else 0

/-- Counterexample to claim C5 as stated: with ramp_duration = -1 the code
only checks ramp_duration > 0, so hasSingularity still returns true, while
the claim requires ramp_duration == 0 for a true result. -/
theorem lissajousHasSingularity_claim_counterexample :
    lissajousHasSingularity pC5 ∧ pC5 "ramp_duration" ≠ 0 := by
  constructor
  · have hA : pC5 "A" = 1 := by decide
    have haf : pC5 "a" = 1 := by decide
    have hB : pC5 "B" = 0 := by decide
    have hbf : pC5 "b" = 0 := by decide
    have hC : pC5 "C" = 0 := by decide
    have hcf : pC5 "c" = 0 := by decide
    have hd : pC5 "duration" = 1 := by decide
    simp only [lissajousHasSingularity]
    rw [if_neg (by norm_num [pC5])]
    rw [hA, haf, hB, hbf, hC, hcf, hd]
    have h1 : hypot3 ((1 : ℚ) * (1 : ℚ) * (2 * Real.pi / ((1 : ℚ) : ℝ)))
        ((0 : ℚ) * (0 : ℚ) * (2 * Real.pi / ((1 : ℚ) : ℝ)))
        ((0 : ℚ) * (0 : ℚ) * (2 * Real.pi / ((1 : ℚ) : ℝ))) = 2 * Real.pi := by
      unfold hypot3
      rw [show ((((1 : ℚ) : ℝ) * ((1 : ℚ) : ℝ) * (2 * Real.pi / ((1 : ℚ) : ℝ))) ^ 2 +
          (((0 : ℚ) : ℝ) * ((0 : ℚ) : ℝ) * (2 * Real.pi / ((1 : ℚ) : ℝ))) ^ 2 +
          (((0 : ℚ) : ℝ) * ((0 : ℚ) : ℝ) * (2 * Real.pi / ((1 : ℚ) : ℝ))) ^ 2 : ℝ) =
          (2 * Real.pi) ^ 2 by push_cast; ring]
      exact Real.sqrt_sq (by positivity)
    rw [h1]
    have hpi := Real.pi_gt_three
    nlinarith [hpi]
  · decide

/-- Claim C5 (amended): hasSingularity holds iff ramp_duration is
nonpositive (the code tests ramp_duration > 0, not == 0) and the t=0
velocity magnitude computed with d_progress = 2*pi/duration exceeds 1e-9;
in particular it is false whenever ramp_duration > 0. -/
theorem lissajousHasSingularity_iff (p : Params) :
    (lissajousHasSingularity p ↔
      (p "ramp_duration" ≤ 0 ∧
        1e-9 < hypot3
          ((p "A" : ℝ) * (p "a" : ℝ) * (2 * Real.pi / (p "duration" : ℝ)))
          ((p "B" : ℝ) * (p "b" : ℝ) * (2 * Real.pi / (p "duration" : ℝ)))
          ((p "C" : ℝ) * (p "c" : ℝ) * (2 * Real.pi / (p "duration" : ℝ))))) ∧
    (0 < p "ramp_duration" → ¬ lissajousHasSingularity p) := by
  constructor
  · simp only [lissajousHasSingularity]
    split_ifs with h
    · constructor
      · intro f
        exact f.elim
      · intro hc
        exact absurd h (not_lt.mpr hc.1)
    · have h' : p "ramp_duration" ≤ 0 := not_lt.mp h
      constructor
      · intro hs
        exact ⟨h', hs⟩
      · intro hc
        exact hc.2
  · intro hr hs
    simp only [lissajousHasSingularity] at hs
    rw [if_pos hr] at hs
    exact hs

/-- Claim C1: for every parameter set with positive duration and every
time t, the deterministic evaluate returns exactly the closed form stated
by the specification. -/
theorem lissajousEvaluate_closed_form (p : Params) (t : ℝ)
    (hdur : 0 < p "duration") :
    lissajousEvaluate t p = lissajousEvaluateSpec t p := by
  simp only [lissajousEvaluate, lissajousEvaluateSpec, KinState.mk.injEq]
  refine ⟨?_, ?_, ?_, ?_, ?_, ?_, ?_, ?_, ?_, ?_, ?_⟩ <;>
    first
      | rfl
      | ring
      | (simp only [hypot3]; congr 1; ring)

/-- Concrete parameter set for the claim C1 witness. -/
def pC1 : Params := fun s =>
  if s = "duration" then 10
  else if s = "ramp_duration" then 3
  else if s = "A" then 1
  else if s = "a" then 2
  else if s = "B" then 1
  else if s = "b" then 1
  else 0

/-- Witness for claim C1 at a concrete parameter set with positive
duration and time 1. -/
theorem lissajousEvaluate_closed_form_witness :
    0 < pC1 "duration" ∧
      lissajousEvaluate 1 pC1 = lissajousEvaluateSpec 1 pC1 :=
  ⟨by norm_num [pC1], lissajousEvaluate_closed_form pC1 1 (by norm_num [pC1])⟩

theorem foldl_add_eq_sum (l : List ℝ) (a : ℝ) : l.foldl (· + ·) a = a + l.sum := by
  induction l generalizing a with
  | nil => simp
  | cons x xs ih =>
    simp only [List.foldl_cons, List.sum_cons, ih]
    ring

theorem foldl_add_sq_eq_sum (m : ℝ) (l : List ℝ) (a : ℝ) :
    l.foldl (fun sum v => sum + (v - m) ^ 2) a =
      a + (l.map (fun v => (v - m) ^ 2)).sum := by
  induction l generalizing a with
  | nil => simp
  | cons x xs ih =>
    simp only [List.foldl_cons, List.map_cons, List.sum_cons, ih]
    ring

theorem foldl_min_le_init (l : List ℝ) (a : ℝ) : l.foldl min a ≤ a := by
  induction l generalizing a with
  | nil => simp
  | cons x xs ih => exact le_trans (ih (min a x)) (min_le_left a x)

theorem foldl_min_le_mem (l : List ℝ) (a x : ℝ) (hx : x ∈ l) : l.foldl min a ≤ x := by
  induction l generalizing a with
  | nil => cases hx
  | cons y ys ih =>
    rcases List.mem_cons.mp hx with h | h
    · subst h
      exact le_trans (foldl_min_le_init ys (min a x)) (min_le_right a x)
    · exact ih (min a y) h

theorem foldl_min_mem (l : List ℝ) (a : ℝ) : l.foldl min a = a ∨ l.foldl min a ∈ l := by
  induction l generalizing a with
  | nil => exact Or.inl rfl
  | cons x xs ih =>
    rcases ih (min a x) with h | h
    · rcases min_choice a x with h2 | h2
      · exact Or.inl (by rw [List.foldl_cons, h, h2])
      · refine Or.inr ?_
        rw [List.foldl_cons, h, h2]
        exact List.mem_cons_self x xs
    · exact Or.inr (List.mem_cons_of_mem x h)

theorem foldl_max_ge_init (l : List ℝ) (a : ℝ) : a ≤ l.foldl max a := by
  induction l generalizing a with
  | nil => simp
  | cons x xs ih => exact le_trans (le_max_left a x) (ih (max a x))

theorem foldl_max_ge_mem (l : List ℝ) (a x : ℝ) (hx : x ∈ l) : x ≤ l.foldl max a := by
  induction l generalizing a with
  | nil => cases hx
  | cons y ys ih =>
    rcases List.mem_cons.mp hx with h | h
    · subst h
      exact le_trans (le_max_right a x) (foldl_max_ge_init ys (max a x))
    · exact ih (max a y) h

theorem foldl_max_mem (l : List ℝ) (a : ℝ) : l.foldl max a = a ∨ l.foldl max a ∈ l := by
  induction l generalizing a with
  | nil => exact Or.inl rfl
  | cons x xs ih =>
    rcases ih (max a x) with h | h
    · rcases max_choice a x with h2 | h2
      · exact Or.inl (by rw [List.foldl_cons, h, h2])
      · refine Or.inr ?_
        rw [List.foldl_cons, h, h2]
        exact List.mem_cons_self x xs
    · exact Or.inr (List.mem_cons_of_mem x h)

theorem jsMin_mem (l : List ℝ) (h : l ≠ []) : jsMin l ∈ l := by
  match l with
  | x :: xs =>
    simp only [jsMin]
    rcases foldl_min_mem xs x with h1 | h1
    · rw [h1]
      exact List.mem_cons_self x xs
    · exact List.mem_cons_of_mem x h1

theorem jsMin_le (l : List ℝ) (x : ℝ) (hx : x ∈ l) : jsMin l ≤ x := by
  match l with
  | y :: ys =>
    simp only [jsMin]
    rcases List.mem_cons.mp hx with h | h
    · subst h
      exact foldl_min_le_init ys x
    · exact foldl_min_le_mem ys y x h

theorem jsMax_mem (l : List ℝ) (h : l ≠ []) : jsMax l ∈ l := by
  match l with
  | x :: xs =>
    simp only [jsMax]
    rcases foldl_max_mem xs x with h1 | h1
    · rw [h1]
      exact List.mem_cons_self x xs
    · exact List.mem_cons_of_mem x h1

theorem jsMax_ge (l : List ℝ) (x : ℝ) (hx : x ∈ l) : x ≤ jsMax l := by
  match l with
  | y :: ys =>
    simp only [jsMax]
    rcases List.mem_cons.mp hx with h | h
    · subst h
      exact foldl_max_ge_init ys x
    · exact foldl_max_ge_mem ys y x h

theorem statRecordAt_t (b : List (List Sample)) (i : ℕ) :
    (statRecordAt b i).t =
      match (b.headD []).get? i with
      | some pt => pt.t
      | none => 0 := rfl

theorem statRecordAt_speedMean (b : List (List Sample)) (i : ℕ) :
    (statRecordAt b i).speedMean =
      (speedsAt b i).foldl (· + ·) 0 / ((speedsAt b i).length : ℝ) := rfl

theorem statRecordAt_speedStd (b : List (List Sample)) (i : ℕ) :
    (statRecordAt b i).speedStd =
      Real.sqrt
        ((speedsAt b i).foldl (fun sum v => sum + (v - (statRecordAt b i).speedMean) ^ 2) 0 /
          ((speedsAt b i).length : ℝ)) := rfl

theorem statRecordAt_speedMin (b : List (List Sample)) (i : ℕ) :
    (statRecordAt b i).speedMin = jsMin (speedsAt b i) := rfl

theorem statRecordAt_speedMax (b : List (List Sample)) (i : ℕ) :
    (statRecordAt b i).speedMax = jsMax (speedsAt b i) := rfl

theorem statRecordAt_speedLower (b : List (List Sample)) (i : ℕ) :
    (statRecordAt b i).speedLower =
      some ((statRecordAt b i).speedMean - (statRecordAt b i).speedStd) := rfl

theorem statRecordAt_speedUpper (b : List (List Sample)) (i : ℕ) :
    (statRecordAt b i).speedUpper =
      some ((statRecordAt b i).speedMean + (statRecordAt b i).speedStd) := rfl

theorem statRecordAt_accelMean (b : List (List Sample)) (i : ℕ) :
    (statRecordAt b i).accelMean =
      (accelsAt b i).foldl (· + ·) 0 / ((accelsAt b i).length : ℝ) := rfl

theorem statRecordAt_accelStd (b : List (List Sample)) (i : ℕ) :
    (statRecordAt b i).accelStd =
      Real.sqrt
        ((accelsAt b i).foldl (fun sum v => sum + (v - (statRecordAt b i).accelMean) ^ 2) 0 /
          ((accelsAt b i).length : ℝ)) := rfl

theorem statRecordAt_accelMin (b : List (List Sample)) (i : ℕ) :
    (statRecordAt b i).accelMin = jsMin (accelsAt b i) := rfl

theorem statRecordAt_accelMax (b : List (List Sample)) (i : ℕ) :
    (statRecordAt b i).accelMax = jsMax (accelsAt b i) := rfl

theorem statRecordAt_accelLower (b : List (List Sample)) (i : ℕ) :
    (statRecordAt b i).accelLower =
      some ((statRecordAt b i).accelMean - (statRecordAt b i).accelStd) := rfl

theorem statRecordAt_accelUpper (b : List (List Sample)) (i : ℕ) :
    (statRecordAt b i).accelUpper =
      some ((statRecordAt b i).accelMean + (statRecordAt b i).accelStd) := rfl

/-- With at least two trajectories, computeStats is the N>1 loop. -/
theorem computeStats_of_two_le (batch : List (List Sample)) (h : 2 ≤ batch.length) :
    computeStats batch =
      (List.range (batch.headD []).length).map (statRecordAt batch) := by
  unfold computeStats
  rw [if_neg (by omega), if_neg (by omega)]

/-- Record emitted at index i of the N>1 loop. -/
theorem computeStats_get?_of_two_le (batch : List (List Sample))
    (h : 2 ≤ batch.length) (i : ℕ) (hi : i < (batch.headD []).length) :
    (computeStats batch).get? i = some (statRecordAt batch i) := by
  rw [computeStats_of_two_le batch h, List.get?_map, List.get?_range hi]
  rfl

/-- When every trajectory has an entry at index i, the collected list has
one entry per trajectory. -/
theorem presentAt_length (batch : List (List Sample)) (i : ℕ)
    (h : ∀ tr ∈ batch, i < tr.length) :
    (presentAt batch i).length = batch.length := by
  induction batch with
  | nil => rfl
  | cons tr rest ih =>
    have h1 : i < tr.length := h tr (List.mem_cons_self _ _)
    simp only [presentAt, List.filterMap_cons, List.get?_eq_get h1, List.length_cons]
    have := ih (fun tr2 htr2 => h tr2 (List.mem_cons_of_mem _ htr2))
    simp only [presentAt] at this
    rw [this]

/-- The first trajectory always contributes to the collected list. -/
theorem presentAt_ne_nil (tr0 : List Sample) (rest : List (List Sample)) (i : ℕ)
    (hi : i < tr0.length) : presentAt (tr0 :: rest) i ≠ [] := by
  simp only [presentAt, List.filterMap_cons, List.get?_eq_get hi]
  exact List.cons_ne_nil _ _

/-- Claim C3: for every batch of more than one index-aligned trajectory,
computeStats emits one record per time index of the first trajectory, and
at each index the record carries the arithmetic mean, the population
standard deviation (dividing by the count N of values, not N-1), the
minimum and the maximum of the N speed and accel values, with the lower
and upper fields set to mean-std and mean+std. -/
theorem computeStats_aligned_stats (batch : List (List Sample)) (L : ℕ)
    (hN : 1 < batch.length) (hLen : ∀ tr ∈ batch, tr.length = L) :
    (computeStats batch).length = L ∧
    ∀ i : ℕ, i < L → ∀ r : StatRecord, (computeStats batch).get? i = some r →
      ((batch.headD []).get? i).map Sample.t = some r.t ∧
      (speedsAt batch i).length = batch.length ∧
      (accelsAt batch i).length = batch.length ∧
      r.speedMean = (speedsAt batch i).sum / (batch.length : ℝ) ∧
      r.speedStd = Real.sqrt
        (((speedsAt batch i).map (fun v => (v - r.speedMean) ^ 2)).sum /
          (batch.length : ℝ)) ∧
      r.speedMin ∈ speedsAt batch i ∧ (∀ v ∈ speedsAt batch i, r.speedMin ≤ v) ∧
      r.speedMax ∈ speedsAt batch i ∧ (∀ v ∈ speedsAt batch i, v ≤ r.speedMax) ∧
      r.speedLower = some (r.speedMean - r.speedStd) ∧
      r.speedUpper = some (r.speedMean + r.speedStd) ∧
      r.accelMean = (accelsAt batch i).sum / (batch.length : ℝ) ∧
      r.accelStd = Real.sqrt
        (((accelsAt batch i).map (fun v => (v - r.accelMean) ^ 2)).sum /
          (batch.length : ℝ)) ∧
      r.accelMin ∈ accelsAt batch i ∧ (∀ v ∈ accelsAt batch i, r.accelMin ≤ v) ∧
      r.accelMax ∈ accelsAt batch i ∧ (∀ v ∈ accelsAt batch i, v ≤ r.accelMax) ∧
      r.accelLower = some (r.accelMean - r.accelStd) ∧
      r.accelUpper = some (r.accelMean + r.accelStd) := by
  have h2 : 2 ≤ batch.length := hN
  have hhead : (batch.headD []).length = L := by
    cases batch with
    | nil => simp at hN
    | cons tr0 rest => simpa using hLen tr0 (List.mem_cons_self _ _)
  constructor
  · rw [computeStats_of_two_le batch h2, List.length_map, List.length_range, hhead]
  · intro i hi r hr
    rw [computeStats_get?_of_two_le batch h2 i (by rw [hhead]; exact hi)] at hr
    have hr' : r = statRecordAt batch i := (Option.some.inj hr).symm
    subst hr'
    have hall : ∀ tr ∈ batch, i < tr.length := fun tr htr => by
      rw [hLen tr htr]
      exact hi
    have hslen : (speedsAt batch i).length = batch.length := by
      simp [speedsAt, presentAt_length batch i hall]
    have halen : (accelsAt batch i).length = batch.length := by
      simp [accelsAt, presentAt_length batch i hall]
    have hne : speedsAt batch i ≠ [] := by
      intro hempty
      rw [hempty] at hslen
      simp at hslen
      omega
    have hnea : accelsAt batch i ≠ [] := by
      intro hempty
      rw [hempty] at halen
      simp at halen
      omega
    obtain ⟨pt, hpt⟩ : ∃ pt, (batch.headD []).get? i = some pt :=
      ⟨_, List.get?_eq_get (by rw [hhead]; exact hi)⟩
    refine ⟨?_, hslen, halen, ?_, ?_, ?_, ?_, ?_, ?_, ?_, ?_, ?_, ?_, ?_, ?_, ?_, ?_, ?_, ?_⟩
    · rw [hpt, statRecordAt_t, hpt]
      rfl
    · rw [statRecordAt_speedMean, foldl_add_eq_sum, zero_add, hslen]
    · rw [statRecordAt_speedStd, foldl_add_sq_eq_sum, zero_add, hslen]
    · rw [statRecordAt_speedMin]
      exact jsMin_mem _ hne
    · intro v hv
      rw [statRecordAt_speedMin]
      exact jsMin_le _ v hv
    · rw [statRecordAt_speedMax]
      exact jsMax_mem _ hne
    · intro v hv
      rw [statRecordAt_speedMax]
      exact jsMax_ge _ v hv
    · exact statRecordAt_speedLower batch i
    · exact statRecordAt_speedUpper batch i
    · rw [statRecordAt_accelMean, foldl_add_eq_sum, zero_add, halen]
    · rw [statRecordAt_accelStd, foldl_add_sq_eq_sum, zero_add, halen]
    · rw [statRecordAt_accelMin]
      exact jsMin_mem _ hnea
    · intro v hv
      rw [statRecordAt_accelMin]
      exact jsMin_le _ v hv
    · rw [statRecordAt_accelMax]
      exact jsMax_mem _ hnea
    · intro v hv
      rw [statRecordAt_accelMax]
      exact jsMax_ge _ v hv
    · exact statRecordAt_accelLower batch i
    · exact statRecordAt_accelUpper batch i

/-- Claim C10: with more than one trajectory and ragged lengths, the
aggregator is total (never raises): it still emits one record per index of
the first trajectory, skipping at each index the trajectories with no
entry there and computing mean, population standard deviation, min and max
over only the values actually present, dividing by the count of present
values (which may be less than the batch size). -/
theorem computeStats_ragged (batch : List (List Sample)) (hN : 1 < batch.length) :
    (computeStats batch).length = (batch.headD []).length ∧
    ∀ i : ℕ, i < (batch.headD []).length →
      ∀ r : StatRecord, (computeStats batch).get? i = some r →
        speedsAt batch i ≠ [] ∧
        (speedsAt batch i).length ≤ batch.length ∧
        r.speedMean = (speedsAt batch i).sum / ((speedsAt batch i).length : ℝ) ∧
        r.speedStd = Real.sqrt
          (((speedsAt batch i).map (fun v => (v - r.speedMean) ^ 2)).sum /
            ((speedsAt batch i).length : ℝ)) ∧
        r.speedMin ∈ speedsAt batch i ∧ (∀ v ∈ speedsAt batch i, r.speedMin ≤ v) ∧
        r.speedMax ∈ speedsAt batch i ∧ (∀ v ∈ speedsAt batch i, v ≤ r.speedMax) ∧
        r.accelMean = (accelsAt batch i).sum / ((accelsAt batch i).length : ℝ) ∧
        r.accelStd = Real.sqrt
          (((accelsAt batch i).map (fun v => (v - r.accelMean) ^ 2)).sum /
            ((accelsAt batch i).length : ℝ)) ∧
        r.accelMin ∈ accelsAt batch i ∧ (∀ v ∈ accelsAt batch i, r.accelMin ≤ v) ∧
        r.accelMax ∈ accelsAt batch i ∧ (∀ v ∈ accelsAt batch i, v ≤ r.accelMax) := by
  have h2 : 2 ≤ batch.length := hN
  constructor
  · rw [computeStats_of_two_le batch h2, List.length_map, List.length_range]
  · intro i hi r hr
    rw [computeStats_get?_of_two_le batch h2 i hi] at hr
    have hr' : r = statRecordAt batch i := (Option.some.inj hr).symm
    subst hr'
    have hne : speedsAt batch i ≠ [] := by
      cases batch with
      | nil => simp at hN
      | cons tr0 rest =>
        have hi0 : i < tr0.length := by simpa using hi
        simp only [speedsAt, ne_eq, List.map_eq_nil]
        exact presentAt_ne_nil tr0 rest i hi0
    have hnea : accelsAt batch i ≠ [] := by
      cases batch with
      | nil => simp at hN
      | cons tr0 rest =>
        have hi0 : i < tr0.length := by simpa using hi
        simp only [accelsAt, ne_eq, List.map_eq_nil]
        exact presentAt_ne_nil tr0 rest i hi0
    refine ⟨hne, ?_, ?_, ?_, ?_, ?_, ?_, ?_, ?_, ?_, ?_, ?_, ?_, ?_⟩
    · simp only [speedsAt, List.length_map]
      exact List.length_filterMap_le _ _
    · rw [statRecordAt_speedMean, foldl_add_eq_sum, zero_add]
    · rw [statRecordAt_speedStd, foldl_add_sq_eq_sum, zero_add]
    · rw [statRecordAt_speedMin]
      exact jsMin_mem _ hne
    · intro v hv
      rw [statRecordAt_speedMin]
      exact jsMin_le _ v hv
    · rw [statRecordAt_speedMax]
      exact jsMax_mem _ hne
    · intro v hv
      rw [statRecordAt_speedMax]
      exact jsMax_ge _ v hv
    · rw [statRecordAt_accelMean, foldl_add_eq_sum, zero_add]
    · rw [statRecordAt_accelStd, foldl_add_sq_eq_sum, zero_add]
    · rw [statRecordAt_accelMin]
      exact jsMin_mem _ hnea
    · intro v hv
      rw [statRecordAt_accelMin]
      exact jsMin_le _ v hv
    · rw [statRecordAt_accelMax]
      exact jsMax_mem _ hnea
    · intro v hv
      rw [statRecordAt_accelMax]
      exact jsMax_ge _ v hv

/-- Counterexample sample with speed 2 and accel 3, used to exhibit the
shape of a single-trajectory statistic record. -/
noncomputable def sC6 : Sample := ⟨0, 0, 0, 0, 0, 0, 0, 2, 0, 0, 0, 3⟩

/-- Counterexample to claim C6 as stated: for the batch of one single
one-sample trajectory, the emitted record carries no speedLower,
speedUpper, accelLower or accelUpper key (modelled as none), so it does
not contain all six statistic fields. -/
theorem computeStats_fields_counterexample :
    (computeStats [[sC6]]).length = 1 ∧
    (computeStats [[sC6]]).map StatRecord.speedLower = [none] ∧
    (computeStats [[sC6]]).map StatRecord.speedUpper = [none] ∧
    (computeStats [[sC6]]).map StatRecord.accelLower = [none] ∧
    (computeStats [[sC6]]).map StatRecord.accelUpper = [none] := by
  refine ⟨rfl, rfl, rfl, rfl, rfl⟩

/-- Claim C6 (amended): in the N==1 case the record copies the single
speed/accel value into min, max and mean with std 0, and carries the raw
t, x, y, speed and accel values, but omits the lower/upper band fields;
for N>1 every record carries all six statistic fields, with lower and
upper equal to mean-std and mean+std. -/
theorem computeStats_record_fields (batch : List (List Sample)) :
    (batch.length = 1 →
      computeStats batch = (batch.headD []).map (fun point =>
        { t := point.t
          x := some point.x
          y := some point.y
          speed := some point.speed
          accel := some point.accel
          speedMin := point.speed
          speedMax := point.speed
          speedMean := point.speed
          speedStd := 0
          speedLower := none
          speedUpper := none
          accelMin := point.accel
          accelMax := point.accel
          accelMean := point.accel
          accelStd := 0
          accelLower := none
          accelUpper := none })) ∧
    (1 < batch.length →
      ∀ r ∈ computeStats batch,
        r.speedLower = some (r.speedMean - r.speedStd) ∧
        r.speedUpper = some (r.speedMean + r.speedStd) ∧
        r.accelLower = some (r.accelMean - r.accelStd) ∧
        r.accelUpper = some (r.accelMean + r.accelStd)) := by
  constructor
  · intro h1
    unfold computeStats
    rw [if_neg (by omega), if_pos h1]
  · intro h2 r hr
    rw [computeStats_of_two_le batch h2] at hr
    obtain ⟨i, hi, rfl⟩ := List.mem_map.mp hr
    exact ⟨statRecordAt_speedLower batch i, statRecordAt_speedUpper batch i,
      statRecordAt_accelLower batch i, statRecordAt_accelUpper batch i⟩

/-- Times visited by both simulate loops: the i-th sampled time is
min(i*dt, plotTime), for i = 0..steps. -/
def sampleTimes (plotTime dt : ℚ) (steps : ℕ) : List ℝ :=
  (List.range (steps + 1)).map (fun i : ℕ => ((min ((i : ℚ) * dt) plotTime : ℚ) : ℝ))

theorem lissajousTraj_times (p : Params) (dt plotTime : ℚ) (steps : ℕ) :
    (lissajousTraj p dt plotTime steps).map Sample.t = sampleTimes plotTime dt steps := by
  simp only [lissajousTraj, sampleTimes, List.map_map]
  rfl

@[simp] theorem langevinSample_t (dt plotTime : ℚ) (i : ℕ)
    (sPrev s : Fin 3 → DimState) :
    (langevinSample dt plotTime i sPrev s).t = ((min (i * dt) plotTime : ℚ) : ℝ) := rfl

theorem langevinTraj_times (p : Params) (dt plotTime : ℚ) (steps : ℕ)
    (stream : ℕ → Fin 3 → ℝ) (hpt : 0 ≤ plotTime) :
    (langevinTraj p dt plotTime steps stream).map Sample.t =
      sampleTimes plotTime dt steps := by
  simp only [langevinTraj, sampleTimes, List.map_cons, List.map_map]
  rw [List.range_succ_eq_map, List.map_cons, List.map_map]
  congr 1
  simp [langevinSample0, Nat.cast_zero, zero_mul, min_eq_left hpt]

theorem sampleTimes_shape (plotTime dt : ℚ) (steps : ℕ)
    (hdt : 0 < dt) (hpt : 0 < plotTime) :
    (sampleTimes plotTime dt steps).Chain' (· ≤ ·) ∧
    (sampleTimes plotTime dt steps).head? = some 0 ∧
    (sampleTimes plotTime dt steps).getLast? =
      some ((min (steps * dt) plotTime : ℚ) : ℝ) := by
  refine ⟨?_, ?_, ?_⟩
  · simp only [sampleTimes]
    rw [List.chain'_map, List.chain'_range_succ]
    intro m hm
    have hmono : ((m : ℚ) * dt) ≤ ((m + 1 : ℕ) : ℚ) * dt := by
      apply mul_le_mul_of_nonneg_right _ hdt.le
      push_cast
      linarith
    exact_mod_cast min_le_min hmono le_rfl
  · simp only [sampleTimes]
    rw [List.range_succ_eq_map, List.map_cons]
    simp [min_eq_left hpt.le]
  · simp only [sampleTimes]
    rw [List.range_succ, List.map_append]
    simp [List.getLast?_concat]

/-- Claim C4 (amended): every trajectory of either simulate with positive
dt and positive plot horizon has non-decreasing time coordinates, starts
at t = 0, and ends at t = min(steps*dt, plotTime) with
steps = max(1, floor(plotTime/dt)); this final time is clamped to the
horizon from above but falls short of the horizon whenever steps*dt is
less than the plot time. -/
theorem simulate_time_structure :
    (∀ (p : Params) (dt : ℚ) (n : ℕ), 0 < dt → 0 < lissajousGetPlotTime p →
      ∀ traj ∈ lissajousSimulate p dt n,
        (traj.map Sample.t).Chain' (· ≤ ·) ∧
        (traj.map Sample.t).head? = some 0 ∧
        (traj.map Sample.t).getLast? =
          some ((min (numSteps (lissajousGetPlotTime p) dt * dt)
            (lissajousGetPlotTime p) : ℚ) : ℝ)) ∧
    (∀ (p : Params) (dt : ℚ) (n : ℕ) (noise : ℕ → ℝ),
      0 < dt → 0 < langevinGetPlotTime p →
      ∀ traj ∈ langevinSimulate p dt n noise,
        (traj.map Sample.t).Chain' (· ≤ ·) ∧
        (traj.map Sample.t).head? = some 0 ∧
        (traj.map Sample.t).getLast? =
          some ((min (numSteps (langevinGetPlotTime p) dt * dt)
            (langevinGetPlotTime p) : ℚ) : ℝ)) := by
  constructor
  · intro p dt n hdt hpt traj htraj
    simp only [lissajousSimulate] at htraj
    rw [if_neg (not_le.mpr hpt)] at htraj
    obtain ⟨m, _, rfl⟩ := List.mem_map.mp htraj
    rw [lissajousTraj_times]
    exact sampleTimes_shape _ _ _ hdt hpt
  · intro p dt n noise hdt hpt traj htraj
    simp only [langevinSimulate] at htraj
    rw [if_neg (not_le.mpr hpt)] at htraj
    obtain ⟨m, _, rfl⟩ := List.mem_map.mp htraj
    rw [langevinTraj_times p dt _ _ _ hpt.le]
    exact sampleTimes_shape _ _ _ hdt hpt

/-- Parameter set for the claim C4 counterexample and witness: duration 10,
no ramp, all amplitudes zero. -/
def pC4 : Params := fun s => if s = "duration" then 10 else 0

/-- Counterexample to claim C4 as stated: with duration 10 (plot horizon
10) and dt = 3, the deterministic simulate visits t = 0, 3, 6, 9, so the
last sample sits at t = 9, strictly short of the horizon 10. -/
theorem simulate_last_time_counterexample :
    lissajousGetPlotTime pC4 = 10 ∧
    ((lissajousSimulate pC4 3 1).headD []).map Sample.t = [0, 3, 6, 9] ∧
    (9 : ℝ) ≠ 10 := by
  have hpt : lissajousGetPlotTime pC4 = 10 := by
    have h1 : pC4 "duration" = 10 := rfl
    have h2 : pC4 "ramp_duration" = 0 := rfl
    have h3 : pC4 "A" = 0 := rfl
    have h4 : pC4 "B" = 0 := rfl
    have h5 : pC4 "C" = 0 := rfl
    norm_num [lissajousGetPlotTime, calculateCycleDuration, lissajousActiveFreqs,
      h1, h2, h3, h4, h5]
  have hsteps : numSteps 10 3 = 3 := by
    have h3 : ⌊(10 : ℚ) / 3⌋ = 3 := by norm_num
    rw [numSteps, h3]
    rfl
  refine ⟨hpt, ?_, by norm_num⟩
  simp only [lissajousSimulate, hpt, hsteps]
  rw [if_neg (by norm_num)]
  simp only [List.range_succ, List.range_zero, List.map_append, List.map_cons,
    List.map_nil, List.nil_append, List.cons_append, List.headD_cons]
  rw [lissajousTraj_times]
  simp only [sampleTimes, List.range_succ, List.range_zero, List.map_append,
    List.map_cons, List.map_nil, List.nil_append, List.cons_append]
  norm_num [min_def]

/-- With sigma = 0 the integrator state is independent of the random
stream: the noise term sigma*dW vanishes identically. -/
theorem langevinStates_sigma_zero (p : Params) (dt : ℚ) (hs : p "sigma" = 0)
    (noise noise' : ℕ → Fin 3 → ℝ) :
    langevinStates p dt noise = langevinStates p dt noise' := by
  funext i
  induction i with
  | zero => rfl
  | succ k ih =>
    funext d
    simp only [langevinStates]
    rw [ih]
    unfold langevinStepDim
    rw [hs]
    norm_num

/-- Claim C9: with sigma = 0 and positive dt, the stochastic simulate is
independent of the random draws (two runs with different streams produce
identical outputs) and all trajectories within one call are identical. -/
theorem langevinSimulate_sigma_zero (p : Params) (dt : ℚ) (n : ℕ)
    (noise1 noise2 : ℕ → ℝ) (hs : p "sigma" = 0) (hdt : 0 < dt) :
    langevinSimulate p dt n noise1 = langevinSimulate p dt n noise2 ∧
    ∀ tr1 ∈ langevinSimulate p dt n noise1,
      ∀ tr2 ∈ langevinSimulate p dt n noise1, tr1 = tr2 := by
  have htraj : ∀ (s1 s2 : ℕ → Fin 3 → ℝ) (pt : ℚ) (steps : ℕ),
      langevinTraj p dt pt steps s1 = langevinTraj p dt pt steps s2 := by
    intro s1 s2 pt steps
    simp only [langevinTraj]
    rw [langevinStates_sigma_zero p dt hs s1 s2]
  constructor
  · simp only [langevinSimulate]
    split_ifs with h
    · rfl
    · apply List.map_congr_left
      intro m _
      exact htraj _ _ _ _
  · intro tr1 h1 tr2 h2
    simp only [langevinSimulate] at h1 h2
    split_ifs at h1 h2 with h
    · cases h1
    · obtain ⟨m1, _, rfl⟩ := List.mem_map.mp h1
      obtain ⟨m2, _, hm2⟩ := List.mem_map.mp h2
      rw [← hm2]
      exact htraj _ _ _ _

/-- Parameter set with sigma = 0 for the claim C9 witness. -/
def pC9 : Params := fun s => if s = "sigma" then 0 else 1

/-- Witness for claim C9 at concrete parameters, dt = 1, two samples and
two different concrete noise streams. -/
theorem langevinSimulate_sigma_zero_witness :
    pC9 "sigma" = 0 ∧ (0 : ℚ) < 1 ∧
    (langevinSimulate pC9 1 2 (fun _ => 0) = langevinSimulate pC9 1 2 (fun _ => 1) ∧
     ∀ tr1 ∈ langevinSimulate pC9 1 2 (fun _ => 0),
       ∀ tr2 ∈ langevinSimulate pC9 1 2 (fun _ => 0), tr1 = tr2) :=
  ⟨rfl, by norm_num,
    langevinSimulate_sigma_zero pC9 1 2 (fun _ => 0) (fun _ => 1) rfl (by norm_num)⟩

/-- Witness for claim C5 at a concrete parameter set with positive
ramp_duration: the singularity flag is false there. -/
theorem lissajousHasSingularity_iff_witness :
    (0 : ℚ) < pC9 "ramp_duration" ∧ ¬ lissajousHasSingularity pC9 :=
  ⟨by norm_num [show pC9 "ramp_duration" = 1 from rfl],
    (lissajousHasSingularity_iff pC9).2
      (by norm_num [show pC9 "ramp_duration" = 1 from rfl])⟩

/-- Witness for claim C7 at a concrete time and parameter set. -/
theorem langevin_evaluate_fails_fast_witness :
    langevin.evaluate 0 pC9 =
      Except.error "Langevin dynamics requires simulation, not point evaluation" ∧
    ∀ k : KinState, langevin.evaluate 0 pC9 ≠ Except.ok k :=
  langevin_evaluate_fails_fast 0 pC9

theorem pC4_lissajous_plotTime : lissajousGetPlotTime pC4 = 10 := by
  have h1 : pC4 "duration" = 10 := rfl
  have h2 : pC4 "ramp_duration" = 0 := rfl
  have h3 : pC4 "A" = 0 := rfl
  have h4 : pC4 "B" = 0 := rfl
  have h5 : pC4 "C" = 0 := rfl
  norm_num [lissajousGetPlotTime, calculateCycleDuration, lissajousActiveFreqs,
    h1, h2, h3, h4, h5]

theorem pC4_langevin_plotTime : langevinGetPlotTime pC4 = 10 := by
  norm_num [langevinGetPlotTime, show pC4 "duration" = 10 from rfl]

/-- Witness for claim C4 at concrete parameters and dt = 2 for both
models. -/
theorem simulate_time_structure_witness :
    (0 : ℚ) < 2 ∧ 0 < lissajousGetPlotTime pC4 ∧ 0 < langevinGetPlotTime pC4 ∧
    (∀ traj ∈ lissajousSimulate pC4 2 1,
      (traj.map Sample.t).Chain' (· ≤ ·) ∧
      (traj.map Sample.t).head? = some 0 ∧
      (traj.map Sample.t).getLast? =
        some ((min (numSteps (lissajousGetPlotTime pC4) 2 * 2)
          (lissajousGetPlotTime pC4) : ℚ) : ℝ)) ∧
    (∀ traj ∈ langevinSimulate pC4 2 1 (fun _ => 0),
      (traj.map Sample.t).Chain' (· ≤ ·) ∧
      (traj.map Sample.t).head? = some 0 ∧
      (traj.map Sample.t).getLast? =
        some ((min (numSteps (langevinGetPlotTime pC4) 2 * 2)
          (langevinGetPlotTime pC4) : ℚ) : ℝ)) :=
  ⟨by norm_num, by rw [pC4_lissajous_plotTime]; norm_num,
    by rw [pC4_langevin_plotTime]; norm_num,
    simulate_time_structure.1 pC4 2 1 (by norm_num)
      (by rw [pC4_lissajous_plotTime]; norm_num),
    simulate_time_structure.2 pC4 2 1 (fun _ => 0) (by norm_num)
      (by rw [pC4_langevin_plotTime]; norm_num)⟩

/-- Sample with speed 1 used in the aggregator witnesses. -/
noncomputable def sW1 : Sample := ⟨0, 0, 0, 0, 0, 0, 0, 1, 0, 0, 0, 0⟩

/-- Sample with speed 2 used in the aggregator witnesses. -/
noncomputable def sW2 : Sample := ⟨0, 0, 0, 0, 0, 0, 0, 2, 0, 0, 0, 0⟩

/-- Two index-aligned one-sample trajectories with speeds 1 and 2. -/
noncomputable def batchW : List (List Sample) := [[sW1], [sW2]]

/-- Witness for claim C3: at the concrete two-trajectory batch with speeds
1 and 2 at index 0 the record carries mean 3/2, population standard
deviation 1/2, minimum 1 and maximum 2. -/
theorem computeStats_aligned_stats_witness :
    1 < batchW.length ∧ (∀ tr ∈ batchW, tr.length = 1) ∧
    (computeStats batchW).length = 1 ∧
    (computeStats batchW).map StatRecord.speedMean = [3 / 2] ∧
    (computeStats batchW).map StatRecord.speedStd = [1 / 2] ∧
    (computeStats batchW).map StatRecord.speedMin = [1] ∧
    (computeStats batchW).map StatRecord.speedMax = [2] := by
  have hN : 1 < batchW.length := by norm_num [batchW]
  have hLen : ∀ tr ∈ batchW, tr.length = 1 := by
    intro tr htr
    simp only [batchW, List.mem_cons, List.mem_singleton, List.not_mem_nil] at htr
    rcases htr with rfl | rfl | h
    · rfl
    · rfl
    · exact h.elim
  have hcs : computeStats batchW = [statRecordAt batchW 0] := by
    rw [computeStats_of_two_le batchW hN]
    rfl
  have hspeeds : speedsAt batchW 0 = [1, 2] := rfl
  have hmean : (statRecordAt batchW 0).speedMean = 3 / 2 := by
    rw [statRecordAt_speedMean, hspeeds]
    norm_num
  have hstd : (statRecordAt batchW 0).speedStd = 1 / 2 := by
    rw [statRecordAt_speedStd, hspeeds, hmean]
    simp only [List.foldl_cons, List.foldl_nil, List.length_cons, List.length_nil]
    rw [show ((0 + ((1 : ℝ) - 3 / 2) ^ 2) + ((2 : ℝ) - 3 / 2) ^ 2) / ((0 + 1 + 1 : ℕ) : ℝ) =
      (1 / 2) ^ 2 by push_cast; ring]
    exact Real.sqrt_sq (by norm_num)
  have hmin : (statRecordAt batchW 0).speedMin = 1 := by
    rw [statRecordAt_speedMin, hspeeds]
    simp [jsMin, min_def]
  have hmax : (statRecordAt batchW 0).speedMax = 2 := by
    rw [statRecordAt_speedMax, hspeeds]
    simp [jsMax, max_def]
  exact ⟨hN, hLen, (computeStats_aligned_stats batchW 1 hN hLen).1,
    by rw [hcs]; simp [hmean],
    by rw [hcs]; simp [hstd],
    by rw [hcs]; simp [hmin],
    by rw [hcs]; simp [hmax]⟩

/-- Witness for claim C6: the amended record-shape contract instantiated
at a singleton batch and at a two-trajectory batch. -/
theorem computeStats_record_fields_witness :
    ([[sC6]] : List (List Sample)).length = 1 ∧
    (computeStats [[sC6]] = ([[sC6]].headD []).map (fun point =>
      { t := point.t
        x := some point.x
        y := some point.y
        speed := some point.speed
        accel := some point.accel
        speedMin := point.speed
        speedMax := point.speed
        speedMean := point.speed
        speedStd := 0
        speedLower := none
        speedUpper := none
        accelMin := point.accel
        accelMax := point.accel
        accelMean := point.accel
        accelStd := 0
        accelLower := none
        accelUpper := none })) ∧
    1 < ([[sC6], [sC6]] : List (List Sample)).length ∧
    (∀ r ∈ computeStats [[sC6], [sC6]],
      r.speedLower = some (r.speedMean - r.speedStd) ∧
      r.speedUpper = some (r.speedMean + r.speedStd) ∧
      r.accelLower = some (r.accelMean - r.accelStd) ∧
      r.accelUpper = some (r.accelMean + r.accelStd)) :=
  ⟨rfl, (computeStats_record_fields [[sC6]]).1 rfl, by norm_num,
    (computeStats_record_fields [[sC6], [sC6]]).2 (by norm_num)⟩

/-- Ragged two-trajectory batch: the first trajectory has two samples, the
second only one. -/
noncomputable def batchR : List (List Sample) := [[sW1, sW2], [sW1]]

/-- Witness for claim C10 at the concrete ragged batch. -/
theorem computeStats_ragged_witness :
    1 < batchR.length ∧
    ((computeStats batchR).length = (batchR.headD []).length ∧
     ∀ i : ℕ, i < (batchR.headD []).length →
       ∀ r : StatRecord, (computeStats batchR).get? i = some r →
         speedsAt batchR i ≠ [] ∧
         (speedsAt batchR i).length ≤ batchR.length ∧
         r.speedMean = (speedsAt batchR i).sum / ((speedsAt batchR i).length : ℝ) ∧
         r.speedStd = Real.sqrt
           (((speedsAt batchR i).map (fun v => (v - r.speedMean) ^ 2)).sum /
             ((speedsAt batchR i).length : ℝ)) ∧
         r.speedMin ∈ speedsAt batchR i ∧ (∀ v ∈ speedsAt batchR i, r.speedMin ≤ v) ∧
         r.speedMax ∈ speedsAt batchR i ∧ (∀ v ∈ speedsAt batchR i, v ≤ r.speedMax) ∧
         r.accelMean = (accelsAt batchR i).sum / ((accelsAt batchR i).length : ℝ) ∧
         r.accelStd = Real.sqrt
           (((accelsAt batchR i).map (fun v => (v - r.accelMean) ^ 2)).sum /
             ((accelsAt batchR i).length : ℝ)) ∧
         r.accelMin ∈ accelsAt batchR i ∧ (∀ v ∈ accelsAt batchR i, r.accelMin ≤ v) ∧
         r.accelMax ∈ accelsAt batchR i ∧ (∀ v ∈ accelsAt batchR i, v ≤ r.accelMax)) :=
  ⟨by norm_num [batchR], computeStats_ragged batchR (by norm_num [batchR])⟩
